import Mathlib

/-!
Verification of the job registry, storage-backend abstraction and worker loop
of the cloud-migration-spot repository.

The embedding models the local-backend registry (`src/common/storage.py`) and
the worker cycle (`src/worker/worker.py`) as pure Lean functions over an
explicit store.  Registry bytes and file contents are `List Nat`; the persisted
registry is a `List Job` in insertion order, exactly as `jobs.json` stores it.
-/

/-- Job status, from `src/common/job_schema.py` (`class JobStatus`). -/
inductive JobStatus where
  | PENDING
  | PROCESSING
  | DONE
  | FAILED
deriving DecidableEq

/-- A job record, from `src/common/job_schema.py` (`class Job`).  `result_path`
and `error` default to `none`, `status` defaults to `PENDING`, matching the
pydantic defaults. -/
structure Job where
  id : String
  image_path : String
  result_path : Option String := none
  status : JobStatus := JobStatus.PENDING
  error : Option String := none
deriving DecidableEq

/-- The persisted state of the local backend: the jobs registry
(`data/jobs.json`, a JSON array in insertion order) and the local filesystem,
modelled as an association list from path to byte content. -/
structure LocalStore where
  jobs : List Job
  files : List (String × List Nat)
deriving DecidableEq

/-- The store at process start: `src/common/config.py` initialises
`jobs.json` to `[]`. -/
def initStore : LocalStore := ⟨[], []⟩

/-- Write `content` at `path` (overwriting any previous content), as
`Path.write_bytes` does. -/
def setFile (files : List (String × List Nat)) (path : String) (content : List Nat) :
    List (String × List Nat) :=
  (path, content) :: files

/-- Read the current content at `path`, if any. -/
def lookupFile (files : List (String × List Nat)) (path : String) : Option (List Nat) :=
  match files with
  | [] => none
  | (p, c) :: rest => if p = path then some c else lookupFile rest path

/-- Linear scan for the first record with the given id, from
`get_job` in `src/common/storage.py` (line 260:
`next((j for j in jobs if j.id == job_id), None)`). -/
def findById (jobs : List Job) (i : String) : Option Job :=
  match jobs with
  | [] => none
  | j :: rest => if j.id = i then some j else findById rest i

/-- Replace the first record whose id matches `job.id` by `job`, from the
update loop of `update_job` in `src/common/storage.py` lines 277-280
(`for i, j in enumerate(jobs): if j.id == job.id: jobs[i] = job; break`).
When no record matches, the list is returned unchanged (the loop falls
through and the unchanged list is written back). -/
def replaceById (jobs : List Job) (job : Job) : List Job :=
  match jobs with
  | [] => []
  | j :: rest => if j.id = job.id then job :: rest else j :: replaceById rest job

/-- `update_job` of `src/common/storage.py` lines 263-288 (local branch):
read the registry, replace the first record matching `job.id`, write the
registry back.  It never fails and writes back even when no record matched. -/
def update_job (job : Job) (s : LocalStore) : LocalStore :=
  { s with jobs := replaceById s.jobs job }

/-- `get_next_pending_job` of `src/common/storage.py` lines 291-306: scan the
registry in insertion order and return the first record with status PENDING.
It performs no write. -/
def get_next_pending_job (jobs : List Job) : Option Job :=
  match jobs with
  | [] => none
  | j :: rest =>
      if j.status = JobStatus.PENDING then some j else get_next_pending_job rest

/-- `LOCAL_INPUT_DIR` of `src/common/config.py`, relative to `BASE_DIR`. -/
def LOCAL_INPUT_DIR : String := "data/input"

/-- The destination path `LOCAL_INPUT_DIR / filename` used by the local branch
of `create_job_from_bytes` (`src/common/storage.py` line 186). -/
def destPath (filename : String) : String := LOCAL_INPUT_DIR ++ "/" ++ filename

/-- `create_job_from_bytes` of `src/common/storage.py` lines 175-196 (local
branch): write the uploaded bytes at `LOCAL_INPUT_DIR/filename` (overwriting),
build a PENDING record pointing at that path, append it to the registry and
persist.  `job_id` is the value returned by `uuid.uuid4()`, passed in
explicitly because it is an external source of fresh identifiers. -/
def create_job_local (job_id filename : String) (content : List Nat) (s : LocalStore) :
    Job × LocalStore :=
  let dest := destPath filename
  let files' := setFile s.files dest content
  let job : Job := { id := job_id, image_path := dest, status := JobStatus.PENDING }
  (job, { jobs := s.jobs ++ [job], files := files' })

/-- `get_next_pending_job` as a state operation: it only reads the persisted
registry (lines 294-306 of `src/common/storage.py` contain no write call), so
the store component is returned unchanged. -/
def get_next_pending_op (s : LocalStore) : Option Job × LocalStore :=
  (get_next_pending_job s.jobs, s)

/-- One worker cycle's sequence of persisted registry states after claiming
job `j`, from `process_job` in `src/worker/worker.py` lines 13-33 (local
backend).  The worker first persists the PROCESSING claim (lines 15-16); on
success `upload_output_from_local` (storage.py lines 364-369) sets
`result_path` and persists while the status is still PROCESSING, after which
the worker persists the DONE record (lines 24-27); on an exception raised by
the download or transform steps it persists the FAILED record with
`error = str(e)` (lines 29-32).  `fault = some msg` models such an exception
with message `msg`; `transform` is the opaque external image transform; the
transform output is written at `/tmp/{job.id}.png` (lines 21-22). -/
def process_job_snapshots (transform : List Nat → List Nat) (fault : Option String)
    (j : Job) (s : LocalStore) : List LocalStore :=
  let s1 := update_job { j with status := JobStatus.PROCESSING } s
  match fault with
  | some msg =>
      [s1, update_job { j with status := JobStatus.FAILED, error := some msg } s1]
  | none =>
      let outPath := "/tmp/" ++ j.id ++ ".png"
      let outBytes := transform ((lookupFile s.files j.image_path).getD [])
      let s1w : LocalStore := { s1 with files := setFile s1.files outPath outBytes }
      let s2 := update_job
        { j with status := JobStatus.PROCESSING, result_path := some outPath } s1w
      [s1, s2,
       update_job { j with status := JobStatus.DONE, result_path := some outPath } s2]

/-- The operations that mutate the persisted state: job creation by the
ingestion side (`create_job_from_bytes`) and one worker polling cycle
(`main`/`process_job` in `src/worker/worker.py`).  `job_id` is the
`uuid.uuid4()` value of the create call; `fault` is the exception, if any,
raised inside the cycle's try block. -/
inductive Op where
  | create (job_id filename : String) (content : List Nat)
  | cycle (fault : Option String)

/-- The persisted stores written during one operation, in order.  A cycle
that finds no PENDING job performs no write (the worker sleeps,
`src/worker/worker.py` lines 38-42). -/
def opSnapshots (transform : List Nat → List Nat) : Op → LocalStore → List LocalStore
  | Op.create job_id filename content, s => [(create_job_local job_id filename content s).2]
  | Op.cycle fault, s =>
      match get_next_pending_job s.jobs with
      | none => []
      | some j => process_job_snapshots transform fault j s

/-- The store after one operation completes. -/
def applyOp (transform : List Nat → List Nat) (op : Op) (s : LocalStore) : LocalStore :=
  (opSnapshots transform op s).getLastD s

/-- All persisted stores written during a run, in order. -/
def runStates (transform : List Nat → List Nat) : List Op → LocalStore → List LocalStore
  | [], _ => []
  | op :: rest, s =>
      opSnapshots transform op s ++ runStates transform rest (applyOp transform op s)

/-- The store at the end of a run. -/
def runOps (transform : List Nat → List Nat) : List Op → LocalStore → LocalStore
  | [], s => s
  | op :: rest, s => runOps transform rest (applyOp transform op s)

/-- Validity of the id supply of a run: `uuid.uuid4()` never repeats an id
already allocated (the code relies on this for id uniqueness,
`src/common/storage.py` line 181). -/
def freshIds : List Op → List String → Bool
  | [], _ => true
  | Op.create job_id _ _ :: rest, used =>
      if job_id ∈ used then false else freshIds rest (job_id :: used)
  | Op.cycle _ :: rest, used => freshIds rest used

/-- The status of the record with id `x` in the persisted registry of `s`. -/
def statusAt (s : LocalStore) (x : String) : Option JobStatus :=
  (findById s.jobs x).map Job.status

/-- The statuses the record with id `x` passes through across a list of
persisted states (states where the record does not exist contribute
nothing). -/
def statusTrace (x : String) (states : List LocalStore) : List JobStatus :=
  states.filterMap (fun s => statusAt s x)

/-- Collapse adjacent equal statuses, so that a trace becomes the sequence of
distinct statuses the record is observed in. -/
def squash : List JobStatus → List JobStatus
  | [] => []
  | [a] => [a]
  | a :: b :: t => if a = b then squash (b :: t) else a :: squash (b :: t)

/-- The strict status transitions of the worker state machine:
PENDING→PROCESSING on claim, PROCESSING→DONE on success,
PROCESSING→FAILED on failure. -/
def stepB : JobStatus → JobStatus → Bool
  | JobStatus.PENDING, JobStatus.PROCESSING => true
  | JobStatus.PROCESSING, JobStatus.DONE => true
  | JobStatus.PROCESSING, JobStatus.FAILED => true
  | _, _ => false

/-- A persisted write either leaves a record's status unchanged or moves it
along one strict transition. -/
def eqStepB (a b : JobStatus) : Bool := a == b || stepB a b

/-- Evolution of a record's status slot across one persisted write: an absent
record may stay absent or appear as PENDING; a present record never
disappears and its status follows `eqStepB`. -/
def optStepB : Option JobStatus → Option JobStatus → Bool
  | none, none => true
  | none, some a => a == JobStatus.PENDING
  | some _, none => false
  | some a, some b => eqStepB a b


/-- Python's `str.startswith`, modelled on the character list so that it is
kernel-computable. -/
def startsWithStr (s p : String) : Bool := s.data.take p.data.length == p.data

/-- Failure modes of `download_input_to_tempfile` (`src/common/storage.py`
lines 309-356): the `ValueError` raised on a URI whose scheme does not match
the active backend (lines 334 and 353), and the not-found error raised by the
cloud SDK when the object is absent. -/
inductive DlError where
  | invalidGcsPath (p : String)
  | invalidAzurePath (p : String)
  | objectNotFound
deriving DecidableEq

/-- Python's `str.partition(sep)` restricted to the pieces the code uses: the
text before the first occurrence of `sep` and the text after it (both empty
tails when `sep` is absent, in which case the first component is the whole
string). -/
def partitionOn (s sep : String) : String × String :=
  match s.splitOn sep with
  | [] => (s, "")
  | [_] => (s, "")
  | a :: rest => (a, String.intercalate sep rest)

/-- Local branch of `download_input_to_tempfile` (`src/common/storage.py`
lines 315-317): it returns `Path(job.image_path)` directly, consulting
neither the filesystem nor the URI scheme, so it can never fail and performs
no existence check (the `files` argument is ignored exactly as the code
ignores the filesystem). -/
def download_input_local (files : List (String × List Nat)) (image_path : String) :
    Except DlError String :=
  let _ := files
  Except.ok image_path

/-- Content lookup in a cloud object store keyed by (container, object name). -/
def lookupObject (objects : List ((String × String) × List Nat))
    (key : String × String) : Option (List Nat) :=
  match objects with
  | [] => none
  | (k, c) :: rest => if k = key then some c else lookupObject rest key

/-- GCP branch of `download_input_to_tempfile` (`src/common/storage.py`
lines 319-334): a path not starting with `gs://` raises
`ValueError(f"Invalid GCS path: ...")`; otherwise the bucket and object name
are split off with `partition` and the blob is downloaded into a fresh
temporary file whose name (`tmpName`) is chosen by `tempfile`.
Modelled from the spec: the SDK call `blob.download_to_filename` (SDK code is
not part of this repository) fails with an object-not-found error when the
blob is absent, per the spec sentence "fails with ObjectNotFound if the
object is absent". -/
def download_input_gcp (objects : List ((String × String) × List Nat))
    (image_path tmpName : String) : Except DlError String :=
  if startsWithStr image_path "gs://" then
    let remainder := (partitionOn image_path "gs://").2
    let bucketName := (partitionOn remainder "/").1
    let objectName := (partitionOn remainder "/").2
    match lookupObject objects (bucketName, objectName) with
    | some _ => Except.ok tmpName
    | none => Except.error DlError.objectNotFound
  else Except.error (DlError.invalidGcsPath image_path)

/-- Azure branch of `download_input_to_tempfile` (`src/common/storage.py`
lines 336-353), mirroring the GCP branch with the `az://` scheme.
Modelled from the spec: the SDK call `blob_client.download_blob` (SDK code is
not part of this repository) fails with an object-not-found error when the
blob is absent. -/
def download_input_azure (objects : List ((String × String) × List Nat))
    (image_path tmpName : String) : Except DlError String :=
  if startsWithStr image_path "az://" then
    let remainder := (partitionOn image_path "az://").2
    let containerName := (partitionOn remainder "/").1
    let objectName := (partitionOn remainder "/").2
    match lookupObject objects (containerName, objectName) with
    | some _ => Except.ok tmpName
    | none => Except.error DlError.objectNotFound
  else Except.error (DlError.invalidAzurePath image_path)

/-- Modelled from the spec: "`update(record)`: full replace of the record
matching `id`; fails with `NotFound` if no such id exists."  This is the
contract the spec states for the registry update; the repository's
`update_job` is compared against it. -/
def update_spec (jobs : List Job) (job : Job) : Option (List Job) :=
  if job.id ∈ jobs.map Job.id then some (replaceById jobs job) else none

/-- The read half of a worker's claim: `get_next_pending_job`, called at
`src/worker/worker.py` line 38.  It performs no write. -/
def worker_claim_read (s : LocalStore) : Option Job :=
  get_next_pending_job s.jobs

/-- The write half of a worker's claim: the first two statements of
`process_job` (`src/worker/worker.py` lines 15-16), executed separately from
the read. -/
def worker_claim_write (j : Job) (s : LocalStore) : LocalStore :=
  update_job { j with status := JobStatus.PROCESSING } s

/-- A registry holding one PENDING job, as seeded before a concurrent claim. -/
def raceJob : Job := { id := "job-a", image_path := "data/input/a.png" }

/-- The store containing only `raceJob`. -/
def raceStore : LocalStore := { jobs := [raceJob], files := [] }

/-- Two workers running the claim code of `src/worker/worker.py` against
`raceStore`, interleaved so that both execute the read
(`get_next_pending_job`, which performs no write) before either executes the
separate claim write of `process_job`.  Returns what each worker observed and
the final store. -/
def raceInterleaving : Option Job × Option Job × LocalStore :=
  let r1 := worker_claim_read raceStore
  let r2 := worker_claim_read raceStore
  let s1 := match r1 with
    | some j => worker_claim_write j raceStore
    | none => raceStore
  let s2 := match r2 with
    | some j => worker_claim_write j s1
    | none => s1
  (r1, r2, s2)

/-- Persisted stores of a two-worker interleaving on `raceStore`: worker one
and worker two both read the PENDING record (no write), worker one then runs
its whole cycle to DONE (`process_job_snapshots`), after which worker two —
still holding the stale PENDING record — executes its separate claim write
(`src/worker/worker.py` lines 15-16), moving the DONE record back to
PROCESSING. -/
def c2RaceStates : List LocalStore :=
  let w1 := process_job_snapshots (fun l => l) none raceJob raceStore
  raceStore :: (w1 ++ [worker_claim_write raceJob (w1.getLastD raceStore)])

/-- Local-disk footprint of the GCP branch of `download_input_to_tempfile`
(`src/common/storage.py` lines 330-332): `tempfile.NamedTemporaryFile` is
called with `delete=False`, creating one scratch file whose path is returned. -/
def download_gcp_disk (tmpName : String) : String × List String :=
  (tmpName, [tmpName])

/-- Local-disk footprint of one successful gcp-backend worker cycle
(`process_job`, `src/worker/worker.py` lines 13-27): the files the cycle
creates on the worker's disk and the files it removes.  The cycle creates the
download scratch file and the transform output `/tmp/{job.id}.png`
(lines 18-22); neither `worker.py` nor `storage.py` contains any
`os.remove`/`unlink` call, so nothing is removed on any exit path. -/
def process_job_gcp_disk (tmpName : String) (j : Job) : List String × List String :=
  let downloaded := download_gcp_disk tmpName
  let outputPath := "/tmp/" ++ j.id ++ ".png"
  (downloaded.2 ++ [outputPath], [])


section BasicLemmas

theorem lookupFile_setFile_self (files : List (String × List Nat)) (p : String)
    (c : List Nat) : lookupFile (setFile files p c) p = some c := by
  simp [setFile, lookupFile]

theorem lookupFile_setFile_ne (files : List (String × List Nat)) (p q : String)
    (c : List Nat) (h : p ≠ q) : lookupFile (setFile files p c) q = lookupFile files q := by
  simp [setFile, lookupFile, h]

theorem findById_replaceById_ne (l : List Job) (k : Job) (x : String) (h : x ≠ k.id) :
    findById (replaceById l k) x = findById l x := by
  induction l with
  | nil => rfl
  | cons j rest ih =>
      by_cases hj : j.id = k.id
      · have hk : ¬ k.id = x := fun hkx => h hkx.symm
        have hjx : ¬ j.id = x := fun hjx => hk (hj ▸ hjx)
        simp [replaceById, findById, hj, hk, hjx]
      · simp only [replaceById, hj, if_false]
        by_cases hx : j.id = x
        · simp [findById, hx]
        · simp [findById, hx, ih]

theorem findById_replaceById_eq (l : List Job) (k : Job)
    (h : k.id ∈ l.map Job.id) : findById (replaceById l k) k.id = some k := by
  induction l with
  | nil => simp at h
  | cons j rest ih =>
      by_cases hj : j.id = k.id
      · simp [replaceById, hj, findById]
      · simp only [List.map_cons, List.mem_cons] at h
        rcases h with h | h
        · exact absurd h.symm hj
        · simp [replaceById, hj, findById, ih h]

theorem map_id_replaceById (l : List Job) (k : Job) :
    (replaceById l k).map Job.id = l.map Job.id := by
  induction l with
  | nil => rfl
  | cons j rest ih =>
      by_cases hj : j.id = k.id
      · simp [replaceById, hj]
      · simp [replaceById, hj, ih]

theorem mem_replaceById (l : List Job) (k x : Job) (h : x ∈ replaceById l k) :
    x = k ∨ x ∈ l := by
  induction l with
  | nil => simp [replaceById] at h
  | cons j rest ih =>
      by_cases hj : j.id = k.id
      · simp only [replaceById, hj, if_true, List.mem_cons] at h
        rcases h with h | h
        · exact Or.inl h
        · exact Or.inr (List.mem_cons_of_mem _ h)
      · simp only [replaceById, hj, if_false, List.mem_cons] at h
        rcases h with h | h
        · exact Or.inr (h ▸ List.mem_cons_self _ _)
        · rcases ih h with h' | h'
          · exact Or.inl h'
          · exact Or.inr (List.mem_cons_of_mem _ h')

theorem replaceById_replaceById (l : List Job) (a b : Job) (h : a.id = b.id) :
    replaceById (replaceById l a) b = replaceById l b := by
  induction l with
  | nil => rfl
  | cons j rest ih =>
      by_cases hj : j.id = a.id
      · simp [replaceById, hj, h ▸ hj, h]
      · have hjb : ¬ j.id = b.id := fun hb => hj (hb.trans h.symm)
        simp [replaceById, hj, hjb, ih]

theorem replaceById_of_not_mem (l : List Job) (k : Job) (h : k.id ∉ l.map Job.id) :
    replaceById l k = l := by
  induction l with
  | nil => rfl
  | cons j rest ih =>
      simp only [List.map_cons, List.mem_cons] at h
      push_neg at h
      have hj : ¬ j.id = k.id := fun hj => h.1 hj.symm
      simp [replaceById, hj, ih h.2]

theorem mem_replaceById_self (l : List Job) (k : Job) (h : k.id ∈ l.map Job.id) :
    k ∈ replaceById l k := by
  induction l with
  | nil => simp at h
  | cons j rest ih =>
      by_cases hj : j.id = k.id
      · simp [replaceById, hj]
      · simp only [List.map_cons, List.mem_cons] at h
        rcases h with h | h
        · exact absurd h.symm hj
        · simp [replaceById, hj, ih h]

theorem get_next_pending_job_mem (l : List Job) (j : Job)
    (h : get_next_pending_job l = some j) : j ∈ l ∧ j.status = JobStatus.PENDING := by
  induction l with
  | nil => simp [get_next_pending_job] at h
  | cons a rest ih =>
      by_cases ha : a.status = JobStatus.PENDING
      · simp only [get_next_pending_job, ha, if_true, Option.some.injEq] at h
        exact ⟨h ▸ List.mem_cons_self _ _, h ▸ ha⟩
      · simp only [get_next_pending_job, ha, if_false] at h
        rcases ih h with ⟨hm, hs⟩
        exact ⟨List.mem_cons_of_mem _ hm, hs⟩

theorem get_next_pending_job_none (l : List Job)
    (h : get_next_pending_job l = none) : ∀ j ∈ l, j.status ≠ JobStatus.PENDING := by
  induction l with
  | nil => simp
  | cons a rest ih =>
      by_cases ha : a.status = JobStatus.PENDING
      · simp [get_next_pending_job, ha] at h
      · simp only [get_next_pending_job, ha, if_false] at h
        intro j hj
        rcases List.mem_cons.mp hj with hj | hj
        · exact hj ▸ ha
        · exact ih h j hj

theorem get_next_pending_job_append (l1 l2 : List Job) :
    get_next_pending_job (l1 ++ l2) =
      (get_next_pending_job l1).orElse (fun _ => get_next_pending_job l2) := by
  induction l1 with
  | nil => simp [get_next_pending_job]
  | cons a rest ih =>
      by_cases ha : a.status = JobStatus.PENDING
      · simp [get_next_pending_job, ha]
      · simp [get_next_pending_job, ha, ih]

theorem findById_append (l1 l2 : List Job) (x : String) :
    findById (l1 ++ l2) x = ((findById l1 x).orElse (fun _ => findById l2 x)) := by
  induction l1 with
  | nil => simp [findById]
  | cons a rest ih =>
      by_cases ha : a.id = x
      · simp [findById, ha]
      · simp [findById, ha, ih]

theorem replaceById_append_of_not_mem (l1 l2 : List Job) (k : Job)
    (h : k.id ∉ l1.map Job.id) :
    replaceById (l1 ++ l2) k = l1 ++ replaceById l2 k := by
  induction l1 with
  | nil => rfl
  | cons j rest ih =>
      simp only [List.map_cons, List.mem_cons] at h
      push_neg at h
      have hj : ¬ j.id = k.id := fun hj => h.1 hj.symm
      simp [replaceById, hj, ih h.2]

theorem findById_of_mem_nodup (l : List Job) (j : Job)
    (hn : (l.map Job.id).Nodup) (hm : j ∈ l) : findById l j.id = some j := by
  induction l with
  | nil => simp at hm
  | cons a rest ih =>
      rcases List.mem_cons.mp hm with hm | hm
      · simp [findById, hm]
      · have ha : a.id ≠ j.id := by
          intro hid
          have : j.id ∈ rest.map Job.id := List.mem_map_of_mem Job.id hm
          exact (List.nodup_cons.mp hn).1 (hid ▸ this)
        simp only [findById, ha, if_false]
        exact ih (List.nodup_cons.mp hn).2 hm

end BasicLemmas


section TraceLemmas

theorem squash_head (a : JobStatus) (l : List JobStatus) :
    (squash (a :: l)).head? = some a := by
  induction l generalizing a with
  | nil => rfl
  | cons b t ih =>
      by_cases hab : a = b
      · simpa [squash, hab] using hab ▸ ih b
      · simp [squash, hab]

theorem squash_chain (l : List JobStatus)
    (h : List.Chain' (fun a b => eqStepB a b = true) l) :
    List.Chain' (fun a b => stepB a b = true) (squash l) := by
  induction l with
  | nil => simp [squash]
  | cons a t ih =>
      cases t with
      | nil => simp [squash]
      | cons b t' =>
          rcases List.chain'_cons.mp h with ⟨hab, ht⟩
          by_cases heq : a = b
          · simpa [squash, heq] using ih ht
          · have hstep : stepB a b = true := by
              rcases Bool.or_eq_true_iff.mp hab with h' | h'
              · exact absurd (eq_of_beq h') heq
              · exact h'
            have hchain := ih ht
            simp only [squash, heq, if_false]
            refine (List.chain'_cons'.mpr ⟨?_, hchain⟩)
            intro y hy
            rw [squash_head b t'] at hy
            cases hy
            exact hstep

theorem strict_chain_cases (l : List JobStatus)
    (h : List.Chain' (fun a b => stepB a b = true) l)
    (hh : l.head? = some JobStatus.PENDING) :
    l = [JobStatus.PENDING] ∨
    l = [JobStatus.PENDING, JobStatus.PROCESSING] ∨
    l = [JobStatus.PENDING, JobStatus.PROCESSING, JobStatus.DONE] ∨
    l = [JobStatus.PENDING, JobStatus.PROCESSING, JobStatus.FAILED] := by
  match l, hh with
  | [JobStatus.PENDING], _ => left; rfl
  | JobStatus.PENDING :: x :: t, _ =>
      rcases List.chain'_cons.mp h with ⟨hx, ht⟩
      have hx' : x = JobStatus.PROCESSING := by
        cases x <;> simp_all [stepB]
      subst hx'
      match t, ht with
      | [], _ => right; left; rfl
      | y :: t', ht =>
          rcases List.chain'_cons.mp ht with ⟨hy, ht'⟩
          have hy' : y = JobStatus.DONE ∨ y = JobStatus.FAILED := by
            cases y <;> simp [stepB] at hy <;> simp
          match t', ht' with
          | [], _ =>
              rcases hy' with hy' | hy'
              · subst hy'; right; right; left; rfl
              · subst hy'; right; right; right; rfl
          | z :: _, ht' =>
              rcases List.chain'_cons.mp ht' with ⟨hz, _⟩
              rcases hy' with hy' | hy' <;> subst hy' <;>
                cases z <;> simp [stepB] at hz

theorem filterMap_chain_of_some (t : List (Option JobStatus)) (a : JobStatus)
    (h : List.Chain' (fun x y => optStepB x y = true) (some a :: t)) :
    List.Chain' (fun x y => eqStepB x y = true) (a :: t.filterMap id) := by
  induction t generalizing a with
  | nil => simp
  | cons o t' ih =>
      rcases List.chain'_cons.mp h with ⟨ho, ht⟩
      cases o with
      | none => simp [optStepB] at ho
      | some b =>
          have hb : eqStepB a b = true := ho
          have := ih b ht
          simp only [List.filterMap_cons, id] at *
          exact List.chain'_cons.mpr ⟨hb, this⟩

theorem trace_cases_of_chain (t : List (Option JobStatus))
    (h : List.Chain' (fun x y => optStepB x y = true) (none :: t)) :
    squash ((none :: t).filterMap id) = [] ∨
    squash ((none :: t).filterMap id) = [JobStatus.PENDING] ∨
    squash ((none :: t).filterMap id) = [JobStatus.PENDING, JobStatus.PROCESSING] ∨
    squash ((none :: t).filterMap id)
      = [JobStatus.PENDING, JobStatus.PROCESSING, JobStatus.DONE] ∨
    squash ((none :: t).filterMap id)
      = [JobStatus.PENDING, JobStatus.PROCESSING, JobStatus.FAILED] := by
  induction t with
  | nil => left; simp [squash]
  | cons o t' ih =>
      rcases List.chain'_cons.mp h with ⟨ho, ht⟩
      cases o with
      | none =>
          simpa [List.filterMap_cons] using ih ht
      | some a =>
          have ha : a = JobStatus.PENDING := by
            cases a <;> simp_all [optStepB]
          subst ha
          have hchain := filterMap_chain_of_some t' JobStatus.PENDING ht
          have hsq := squash_chain _ hchain
          have hhd := squash_head JobStatus.PENDING (t'.filterMap id)
          right
          simpa [List.filterMap_cons] using strict_chain_cases _ hsq hhd

end TraceLemmas


section RunLemmas

theorem optStepB_refl (a : Option JobStatus) : optStepB a a = true := by
  cases a with
  | none => rfl
  | some b => simp [optStepB, eqStepB]

theorem mem_ids_of_findById (l : List Job) (x : String) (r : Job)
    (h : findById l x = some r) : x ∈ l.map Job.id := by
  induction l with
  | nil => simp [findById] at h
  | cons j rest ih =>
      by_cases hj : j.id = x
      · simp [hj]
      · simp only [findById, hj, if_false] at h
        simp [ih h]

theorem statusAt_replace (sb sa : LocalStore) (k : Job)
    (hjobs : sb.jobs = replaceById sa.jobs k) (hmem : k.id ∈ sa.jobs.map Job.id) :
    statusAt sb k.id = some k.status := by
  simp [statusAt, hjobs, findById_replaceById_eq _ _ hmem]

theorem optStep_link (sa sb : LocalStore) (k : Job) (x : String) (st : JobStatus)
    (hjobs : sb.jobs = replaceById sa.jobs k)
    (hprev : statusAt sa k.id = some st)
    (hstep : eqStepB st k.status = true) :
    optStepB (statusAt sa x) (statusAt sb x) = true := by
  by_cases hx : x = k.id
  · subst hx
    have hmem : k.id ∈ sa.jobs.map Job.id := by
      rcases Option.map_eq_some'.mp hprev with ⟨r, hr, _⟩
      exact mem_ids_of_findById _ _ _ hr
    rw [hprev, statusAt_replace sb sa k hjobs hmem]
    simpa [optStepB] using hstep
  · have : statusAt sb x = statusAt sa x := by
      simp [statusAt, hjobs, findById_replaceById_ne _ _ _ hx]
    rw [this]
    exact optStepB_refl _

theorem ids_update (s : LocalStore) (k : Job) :
    (update_job k s).jobs.map Job.id = s.jobs.map Job.id := by
  simp [update_job, map_id_replaceById]

theorem optStep_create (s : LocalStore) (i f : String) (c : List Nat) (x : String) :
    optStepB (statusAt s x) (statusAt (create_job_local i f c s).2 x) = true := by
  unfold statusAt create_job_local
  simp only [findById_append]
  cases hfind : findById s.jobs x with
  | some r => simp [Option.orElse, optStepB, eqStepB]
  | none =>
      by_cases hix : i = x
      · simp [Option.orElse, findById, hix, optStepB]
      · simp [Option.orElse, findById, hix, optStepB]


theorem cycle_chain (transform : List Nat → List Nat) (fault : Option String)
    (s : LocalStore) (x : String) (hn : (s.jobs.map Job.id).Nodup) :
    List.Chain' (fun a b => optStepB (statusAt a x) (statusAt b x) = true)
      (s :: opSnapshots transform (Op.cycle fault) s) := by
  simp only [opSnapshots]
  cases hg : get_next_pending_job s.jobs with
  | none => exact List.chain'_singleton s
  | some j =>
      obtain ⟨hmem, hp⟩ := get_next_pending_job_mem _ _ hg
      have hid : j.id ∈ s.jobs.map Job.id := List.mem_map_of_mem Job.id hmem
      have hfind : findById s.jobs j.id = some j := findById_of_mem_nodup _ _ hn hmem
      have hs0 : statusAt s j.id = some JobStatus.PENDING := by
        simp [statusAt, hfind, hp]
      have hst1 : statusAt (update_job { j with status := JobStatus.PROCESSING } s) j.id =
          some JobStatus.PROCESSING :=
        statusAt_replace _ s { j with status := JobStatus.PROCESSING } rfl hid
      have hmemu : j.id ∈ (update_job { j with status := JobStatus.PROCESSING } s).jobs.map
          Job.id := by
        rw [ids_update]; exact hid
      simp only [process_job_snapshots]
      cases fault with
      | some msg =>
          refine List.chain'_cons.mpr ⟨?_, List.chain'_cons.mpr ⟨?_, List.chain'_singleton _⟩⟩
          · exact optStep_link s _ { j with status := JobStatus.PROCESSING } x
              JobStatus.PENDING rfl hs0 rfl
          · exact optStep_link _ _
              { j with status := JobStatus.FAILED, error := some msg } x
              JobStatus.PROCESSING rfl hst1 rfl
      | none =>
          have hst2 : statusAt (update_job
              { j with status := JobStatus.PROCESSING, result_path := some ("/tmp/" ++ j.id ++ ".png") }
              { jobs := (update_job { j with status := JobStatus.PROCESSING } s).jobs,
                files := setFile (update_job { j with status := JobStatus.PROCESSING } s).files
                  ("/tmp/" ++ j.id ++ ".png")
                  (transform ((lookupFile s.files j.image_path).getD [])) }) j.id =
              some JobStatus.PROCESSING :=
            statusAt_replace _ _
              { j with status := JobStatus.PROCESSING, result_path := some ("/tmp/" ++ j.id ++ ".png") } rfl hmemu
          refine List.chain'_cons.mpr ⟨?_, List.chain'_cons.mpr ⟨?_,
            List.chain'_cons.mpr ⟨?_, List.chain'_singleton _⟩⟩⟩
          · exact optStep_link s _ { j with status := JobStatus.PROCESSING } x
              JobStatus.PENDING rfl hs0 rfl
          · exact optStep_link _ _
              { j with status := JobStatus.PROCESSING, result_path := some ("/tmp/" ++ j.id ++ ".png") } x
              JobStatus.PROCESSING rfl hst1 rfl
          · exact optStep_link _ _
              { j with status := JobStatus.DONE, result_path := some ("/tmp/" ++ j.id ++ ".png") } x
              JobStatus.PROCESSING rfl hst2 rfl

end RunLemmas

section RunChain

theorem chain_append_getLastD {α : Type} (R : α → α → Prop) (s : α) (A B : List α)
    (h1 : List.Chain' R (s :: A)) (h2 : List.Chain' R (A.getLastD s :: B)) :
    List.Chain' R (s :: (A ++ B)) := by
  induction A generalizing s with
  | nil => simpa using h2
  | cons a A' ih =>
      rcases List.chain'_cons.mp h1 with ⟨hsa, hA⟩
      have h2' : List.Chain' R (A'.getLastD a :: B) := by
        rwa [List.getLastD_cons] at h2
      exact List.chain'_cons.mpr ⟨hsa, ih a hA h2'⟩

theorem freshIds_congr (ops : List Op) : ∀ (u v : List String),
    (∀ a, a ∈ u ↔ a ∈ v) → freshIds ops u = freshIds ops v := by
  induction ops with
  | nil => intro u v _; rfl
  | cons op rest ih =>
      intro u v h
      cases op with
      | create i f c =>
          simp only [freshIds]
          by_cases hi : i ∈ u
          · rw [if_pos hi, if_pos ((h i).mp hi)]
          · rw [if_neg hi, if_neg (fun hv => hi ((h i).mpr hv))]
            exact ih _ _ (fun a => by simp [List.mem_cons, h a])
      | cycle fault => exact ih _ _ h

theorem ids_applyOp_create (transform : List Nat → List Nat) (i f : String)
    (c : List Nat) (s : LocalStore) :
    (applyOp transform (Op.create i f c) s).jobs.map Job.id = s.jobs.map Job.id ++ [i] := by
  simp [applyOp, opSnapshots, create_job_local]

theorem ids_applyOp_cycle (transform : List Nat → List Nat) (fault : Option String)
    (s : LocalStore) :
    (applyOp transform (Op.cycle fault) s).jobs.map Job.id = s.jobs.map Job.id := by
  simp only [applyOp, opSnapshots]
  cases hg : get_next_pending_job s.jobs with
  | none => rfl
  | some j =>
      cases fault with
      | some msg => simp [process_job_snapshots, update_job, map_id_replaceById]
      | none => simp [process_job_snapshots, update_job, map_id_replaceById]

theorem run_chain (transform : List Nat → List Nat) (ops : List Op) :
    ∀ (s : LocalStore) (x : String), (s.jobs.map Job.id).Nodup →
    freshIds ops (s.jobs.map Job.id) = true →
    List.Chain' (fun a b => optStepB (statusAt a x) (statusAt b x) = true)
      (s :: runStates transform ops s) ∧
    ((runOps transform ops s).jobs.map Job.id).Nodup := by
  induction ops with
  | nil => exact fun s x hn _ => ⟨List.chain'_singleton s, hn⟩
  | cons op rest ih =>
      intro s x hn hf
      cases op with
      | create i f c =>
          simp only [freshIds] at hf
          by_cases hi : i ∈ s.jobs.map Job.id
          · rw [if_pos hi] at hf; simp at hf
          · rw [if_neg hi] at hf
            have hids := ids_applyOp_create transform i f c s
            have hn' : ((applyOp transform (Op.create i f c) s).jobs.map Job.id).Nodup := by
              rw [hids]
              refine List.Nodup.append hn (List.nodup_singleton i) ?_
              intro a ha hai
              rw [List.mem_singleton] at hai
              exact hi (hai ▸ ha)
            have hf' : freshIds rest
                ((applyOp transform (Op.create i f c) s).jobs.map Job.id) = true := by
              rw [hids, freshIds_congr rest _ (i :: s.jobs.map Job.id)
                (fun a => by simp [List.mem_cons, List.mem_append, or_comm])]
              exact hf
            obtain ⟨hchain, hnod⟩ := ih (applyOp transform (Op.create i f c) s) x hn' hf'
            refine ⟨?_, by simpa only [runOps] using hnod⟩
            simp only [runStates]
            refine chain_append_getLastD _ s _ _ ?_ hchain
            simp only [opSnapshots]
            exact List.chain'_pair.mpr (optStep_create s i f c x)
      | cycle fault =>
          simp only [freshIds] at hf
          have hids := ids_applyOp_cycle transform fault s
          have hn' : ((applyOp transform (Op.cycle fault) s).jobs.map Job.id).Nodup := by
            rw [hids]; exact hn
          have hf' : freshIds rest
              ((applyOp transform (Op.cycle fault) s).jobs.map Job.id) = true := by
            rw [hids]; exact hf
          obtain ⟨hchain, hnod⟩ := ih (applyOp transform (Op.cycle fault) s) x hn' hf'
          refine ⟨?_, by simpa only [runOps] using hnod⟩
          simp only [runStates]
          exact chain_append_getLastD _ s _ _ (cycle_chain transform fault s x hn) hchain

end RunChain

theorem jobs_applyOp_cycle_fault (t : List Nat → List Nat) (msg : String)
    (s : LocalStore) (j : Job) (hg : get_next_pending_job s.jobs = some j) :
    (applyOp t (Op.cycle (some msg)) s).jobs
      = replaceById s.jobs { j with status := JobStatus.FAILED, error := some msg } := by
  simp only [applyOp, opSnapshots, hg, process_job_snapshots, List.getLastD_cons, List.getLastD_nil, update_job]
  exact replaceById_replaceById _ _ _ rfl

theorem jobs_applyOp_cycle_ok (t : List Nat → List Nat)
    (s : LocalStore) (j : Job) (hg : get_next_pending_job s.jobs = some j) :
    (applyOp t (Op.cycle none) s).jobs
      = replaceById s.jobs
          { j with status := JobStatus.DONE, result_path := some ("/tmp/" ++ j.id ++ ".png") } := by
  simp only [applyOp, opSnapshots, hg, process_job_snapshots, List.getLastD_cons, List.getLastD_nil, update_job]
  rw [replaceById_replaceById s.jobs { j with status := JobStatus.PROCESSING }
    { j with status := JobStatus.PROCESSING, result_path := some ("/tmp/" ++ j.id ++ ".png") } rfl,
    replaceById_replaceById s.jobs
    { j with status := JobStatus.PROCESSING, result_path := some ("/tmp/" ++ j.id ++ ".png") }
    { j with status := JobStatus.DONE, result_path := some ("/tmp/" ++ j.id ++ ".png") } rfl]

theorem applyOp_cycle_nopending (t : List Nat → List Nat) (fault : Option String)
    (s : LocalStore) (hg : get_next_pending_job s.jobs = none) :
    applyOp t (Op.cycle fault) s = s := by
  simp [applyOp, opSnapshots, hg]

theorem inv_applyOp (t : List Nat → List Nat) (op : Op) (s : LocalStore)
    (hinv : ∀ j ∈ s.jobs, ((j.result_path ≠ none) ↔ j.status = JobStatus.DONE) ∧
      ((j.error ≠ none) ↔ j.status = JobStatus.FAILED)) :
    ∀ j ∈ (applyOp t op s).jobs, ((j.result_path ≠ none) ↔ j.status = JobStatus.DONE) ∧
      ((j.error ≠ none) ↔ j.status = JobStatus.FAILED) := by
  cases op with
  | create i f c =>
      intro j hj
      simp only [applyOp, opSnapshots, List.getLastD_cons, List.getLastD_nil,
        create_job_local, List.mem_append] at hj
      rcases hj with hj | hj
      · exact hinv j hj
      · rw [List.mem_singleton] at hj
        subst hj
        simp
  | cycle fault =>
      cases hg : get_next_pending_job s.jobs with
      | none => rw [applyOp_cycle_nopending t fault s hg]; exact hinv
      | some k =>
          obtain ⟨hmem, hp⟩ := get_next_pending_job_mem _ _ hg
          obtain ⟨hres, herr⟩ := hinv k hmem
          have hres' : k.result_path = none := by
            by_contra hne
            exact absurd (hp.symm.trans (hres.mp hne)) (by decide)
          have herr' : k.error = none := by
            by_contra hne
            exact absurd (hp.symm.trans (herr.mp hne)) (by decide)
          cases fault with
          | some msg =>
              intro j hj
              rw [jobs_applyOp_cycle_fault t msg s k hg] at hj
              rcases mem_replaceById _ _ _ hj with hj | hj
              · subst hj
                exact ⟨by simp [hres'], by simp⟩
              · exact hinv j hj
          | none =>
              intro j hj
              rw [jobs_applyOp_cycle_ok t s k hg] at hj
              rcases mem_replaceById _ _ _ hj with hj | hj
              · subst hj
                exact ⟨by simp, by simp [herr']⟩
              · exact hinv j hj

theorem inv_runOps (t : List Nat → List Nat) (ops : List Op) : ∀ (s : LocalStore),
    (∀ j ∈ s.jobs, ((j.result_path ≠ none) ↔ j.status = JobStatus.DONE) ∧
      ((j.error ≠ none) ↔ j.status = JobStatus.FAILED)) →
    ∀ j ∈ (runOps t ops s).jobs, ((j.result_path ≠ none) ↔ j.status = JobStatus.DONE) ∧
      ((j.error ≠ none) ↔ j.status = JobStatus.FAILED) := by
  induction ops with
  | nil => exact fun s h => h
  | cons op rest ih => exact fun s h => ih _ (inv_applyOp t op s h)

theorem string_append_left_cancel (a b c : String) (h : a ++ b = a ++ c) : b = c := by
  have h' := congrArg String.data h
  simp only [String.data_append] at h'
  exact String.ext (List.append_cancel_left h')

theorem destPath_inj (f1 f2 : String) (h : destPath f1 = destPath f2) : f1 = f2 := by
  have h' : (LOCAL_INPUT_DIR ++ "/") ++ f1 = (LOCAL_INPUT_DIR ++ "/") ++ f2 := by
    simpa [destPath, String.append_assoc] using h
  exact string_append_left_cancel _ _ _ h'

/-- C1: the claim states that the worker claim (`get_next_pending_job`
followed by the PROCESSING update) is one indivisible step so that two
concurrent callers never both observe and claim the same PENDING record.
The code refutes it: `get_next_pending_job` performs no write, so in the
interleaving where both workers read before either writes, both observe and
claim the very same PENDING record (`raceJob`). -/
theorem claim_C1_nonatomic_claim_race :
    raceInterleaving.1 = some raceJob ∧
    raceInterleaving.2.1 = some raceJob ∧
    raceJob.status = JobStatus.PENDING ∧
    statusAt raceInterleaving.2.2 raceJob.id = some JobStatus.PROCESSING := by decide

/-- C2 counterexample: with two workers running the actual worker code
against a registry holding one PENDING job, interleaved so that both read
the record before either writes, the persisted status sequence of that
record is PENDING, PROCESSING, PROCESSING, DONE, PROCESSING — the terminal
DONE is overwritten, so the sequence is not a subsequence of
PENDING, PROCESSING, (DONE|FAILED). -/
theorem claim_C2_counterexample :
    statusTrace raceJob.id c2RaceStates =
      [JobStatus.PENDING, JobStatus.PROCESSING, JobStatus.PROCESSING,
       JobStatus.DONE, JobStatus.PROCESSING] ∧
    ¬ (List.Sublist (squash (statusTrace raceJob.id c2RaceStates))
        [JobStatus.PENDING, JobStatus.PROCESSING, JobStatus.DONE] ∨
       List.Sublist (squash (statusTrace raceJob.id c2RaceStates))
        [JobStatus.PENDING, JobStatus.PROCESSING, JobStatus.FAILED]) := by decide

/-- C2 (amended): in any sequential run — creations and atomic worker
cycles, with or without faults, in any order, starting from the empty
registry, with `uuid.uuid4()` never repeating an id — the sequence of
distinct statuses every record passes through in the persisted registry is
exactly one of: empty (record never created), PENDING, then
PENDING, PROCESSING, then PENDING, PROCESSING, DONE or
PENDING, PROCESSING, FAILED.  In particular it is a subsequence of
PENDING, PROCESSING, (DONE|FAILED), no record reaches DONE or FAILED
without passing through PROCESSING, and no record leaves a terminal
state. -/
theorem claim_C2_sequential_status_lifecycle (transform : List Nat → List Nat)
    (ops : List Op) (x : String) (hf : freshIds ops [] = true) :
    squash (statusTrace x (initStore :: runStates transform ops initStore)) = [] ∨
    squash (statusTrace x (initStore :: runStates transform ops initStore))
      = [JobStatus.PENDING] ∨
    squash (statusTrace x (initStore :: runStates transform ops initStore))
      = [JobStatus.PENDING, JobStatus.PROCESSING] ∨
    squash (statusTrace x (initStore :: runStates transform ops initStore))
      = [JobStatus.PENDING, JobStatus.PROCESSING, JobStatus.DONE] ∨
    squash (statusTrace x (initStore :: runStates transform ops initStore))
      = [JobStatus.PENDING, JobStatus.PROCESSING, JobStatus.FAILED] := by
  obtain ⟨hchain, _⟩ := run_chain transform ops initStore x (by simp [initStore]) hf
  have hmap : List.Chain' (fun a b => optStepB a b = true)
      ((initStore :: runStates transform ops initStore).map (fun s => statusAt s x)) :=
    (List.chain'_map _).mpr hchain
  rw [List.map_cons, show statusAt initStore x = none from rfl] at hmap
  have hres := trace_cases_of_chain _ hmap
  have hrw : (none :: (runStates transform ops initStore).map (fun s => statusAt s x)).filterMap id
      = statusTrace x (initStore :: runStates transform ops initStore) := by
    simp [statusTrace, List.filterMap_cons, List.filterMap_map,
      show statusAt initStore x = none from rfl]
  rw [hrw] at hres
  exact hres

/-- Witness for C2: a concrete run (one create, one successful cycle)
whose record "a" traverses exactly PENDING, PROCESSING, DONE. -/
theorem claim_C2_sequential_status_lifecycle_witness :
    freshIds [Op.create "a" "f.png" [7], Op.cycle none] [] = true ∧
    (squash (statusTrace "a"
        (initStore :: runStates (fun l => l) [Op.create "a" "f.png" [7], Op.cycle none] initStore))
      = [] ∨
     squash (statusTrace "a"
        (initStore :: runStates (fun l => l) [Op.create "a" "f.png" [7], Op.cycle none] initStore))
      = [JobStatus.PENDING] ∨
     squash (statusTrace "a"
        (initStore :: runStates (fun l => l) [Op.create "a" "f.png" [7], Op.cycle none] initStore))
      = [JobStatus.PENDING, JobStatus.PROCESSING] ∨
     squash (statusTrace "a"
        (initStore :: runStates (fun l => l) [Op.create "a" "f.png" [7], Op.cycle none] initStore))
      = [JobStatus.PENDING, JobStatus.PROCESSING, JobStatus.DONE] ∨
     squash (statusTrace "a"
        (initStore :: runStates (fun l => l) [Op.create "a" "f.png" [7], Op.cycle none] initStore))
      = [JobStatus.PENDING, JobStatus.PROCESSING, JobStatus.FAILED]) :=
  ⟨by decide,
   claim_C2_sequential_status_lifecycle (fun l => l) [Op.create "a" "f.png" [7], Op.cycle none]
     "a" (by decide)⟩

/-- C3 counterexample: in the legal sequential run consisting of one create
and one successful worker cycle, the intermediate update performed by
`upload_output_from_local` (storage.py line 368) persists a record with
`result_path` set while its status is still PROCESSING, so the claimed
invariant does not hold after every update operation. -/
theorem claim_C3_counterexample :
    ∃ st ∈ initStore :: runStates (fun l => l) [Op.create "a" "f.png" [7], Op.cycle none] initStore,
      ∃ j ∈ st.jobs, j.result_path ≠ none ∧ j.status ≠ JobStatus.DONE := by decide

/-- C3 (amended): after every complete operation (create, or a whole worker
cycle) in a sequential run from the empty registry, every persisted record
satisfies result_path nonnull iff status DONE, and error nonnull iff status
FAILED; only the intermediate update inside `upload_output_from_local`
transiently violates the result_path direction mid-cycle. -/
theorem claim_C3_invariant_after_operations (transform : List Nat → List Nat) (ops : List Op)
    (j : Job) (hj : j ∈ (runOps transform ops initStore).jobs) :
    ((j.result_path ≠ none) ↔ j.status = JobStatus.DONE) ∧
    ((j.error ≠ none) ↔ j.status = JobStatus.FAILED) :=
  inv_runOps transform ops initStore (by simp [initStore]) j hj

/-- Witness for C3 (amended): the DONE record produced by a concrete
create-then-cycle run satisfies both iffs. -/
theorem claim_C3_invariant_after_operations_witness :
    ({ id := "a", image_path := destPath "f.png", result_path := some "/tmp/a.png", status := JobStatus.DONE, error := none } : Job) ∈
      (runOps (fun l => l) [Op.create "a" "f.png" [7], Op.cycle none] initStore).jobs ∧
    ((({ id := "a", image_path := destPath "f.png", result_path := some "/tmp/a.png", status := JobStatus.DONE, error := none } : Job).result_path ≠ none) ↔
      ({ id := "a", image_path := destPath "f.png", result_path := some "/tmp/a.png", status := JobStatus.DONE, error := none } : Job).status = JobStatus.DONE) ∧
    ((({ id := "a", image_path := destPath "f.png", result_path := some "/tmp/a.png", status := JobStatus.DONE, error := none } : Job).error ≠ none) ↔
      ({ id := "a", image_path := destPath "f.png", result_path := some "/tmp/a.png", status := JobStatus.DONE, error := none } : Job).status = JobStatus.FAILED) :=
  ⟨by decide,
   claim_C3_invariant_after_operations (fun l => l) [Op.create "a" "f.png" [7], Op.cycle none]
     _ (by decide)⟩

/-- C4 counterexample: updating a record whose id ("ghost") is absent from
the registry returns successfully with the registry unchanged, whereas the
spec-modelled `update_spec` fails with NotFound; the claim that `update`
fails with NotFound is therefore false of the code. -/
theorem claim_C4_counterexample :
    update_job { id := "ghost", image_path := "x" } raceStore = raceStore ∧
    update_spec raceStore.jobs { id := "ghost", image_path := "x" } = none := by decide

/-- C4 (amended): `update_job` fully replaces the first stored record whose
id equals the argument record's id (the stored record for that id becomes
exactly the argument, all other ids are untouched and the id list is
unchanged); when no record with that id exists it returns successfully
leaving the registry unchanged — it does not fail with NotFound. -/
theorem claim_C4_update_replace_or_noop (jobs : List Job)
    (files : List (String × List Nat)) (job : Job) :
    (job.id ∉ jobs.map Job.id → update_job job ⟨jobs, files⟩ = ⟨jobs, files⟩) ∧
    (job.id ∈ jobs.map Job.id →
      findById (update_job job ⟨jobs, files⟩).jobs job.id = some job ∧
      (∀ x, x ≠ job.id → findById (update_job job ⟨jobs, files⟩).jobs x = findById jobs x) ∧
      (update_job job ⟨jobs, files⟩).jobs.map Job.id = jobs.map Job.id) := by
  constructor
  · intro h
    simp [update_job, replaceById_of_not_mem jobs job h]
  · intro h
    exact ⟨findById_replaceById_eq jobs job h,
      fun x hx => findById_replaceById_ne jobs job x hx,
      map_id_replaceById jobs job⟩

/-- Witness for C4 (amended): replacing the one record of a one-record
registry stores exactly the new record. -/
theorem claim_C4_update_replace_or_noop_witness :
    (({ raceJob with status := JobStatus.PROCESSING } : Job).id ∈ [raceJob].map Job.id) ∧
    findById (update_job { raceJob with status := JobStatus.PROCESSING }
        ⟨[raceJob], []⟩).jobs ({ raceJob with status := JobStatus.PROCESSING } : Job).id
      = some { raceJob with status := JobStatus.PROCESSING } :=
  ⟨by decide,
   ((claim_C4_update_replace_or_noop [raceJob] []
     { raceJob with status := JobStatus.PROCESSING }).2 (by decide)).1⟩

/-- C5: if any step of a claimed job's processing raises an exception with
message `msg`, the worker persists that job as FAILED with `error` set to
the diagnostic `msg`, no other record is touched, and the polling loop
continues with the next operation — a single job's failure never terminates
the worker. -/
theorem claim_C5_failure_contained (transform : List Nat → List Nat) (s : LocalStore)
    (msg : String) (j : Job) (hg : get_next_pending_job s.jobs = some j) :
    ({ j with status := JobStatus.FAILED, error := some msg } : Job) ∈
      (applyOp transform (Op.cycle (some msg)) s).jobs ∧
    ({ j with status := JobStatus.FAILED, error := some msg } : Job).error ≠ none ∧
    (∀ x, x ≠ j.id → findById (applyOp transform (Op.cycle (some msg)) s).jobs x
      = findById s.jobs x) ∧
    (∀ rest, runOps transform (Op.cycle (some msg) :: rest) s
      = runOps transform rest (applyOp transform (Op.cycle (some msg)) s)) := by
  obtain ⟨hmem, hp⟩ := get_next_pending_job_mem _ _ hg
  have hjobs := jobs_applyOp_cycle_fault transform msg s j hg
  refine ⟨?_, by simp, ?_, fun rest => rfl⟩
  · rw [hjobs]
    have hmm2 : j.id ∈ s.jobs.map Job.id := List.mem_map_of_mem Job.id hmem
    exact mem_replaceById_self _ _ hmm2
  · intro x hx
    rw [hjobs]
    exact findById_replaceById_ne s.jobs _ x hx

/-- Witness for C5: a concrete failing cycle on a one-job registry marks
that job FAILED with the diagnostic recorded. -/
theorem claim_C5_failure_contained_witness :
    get_next_pending_job raceStore.jobs = some raceJob ∧
    ({ raceJob with status := JobStatus.FAILED, error := some "cannot identify image file" } : Job) ∈
      (applyOp (fun l => l) (Op.cycle (some "cannot identify image file")) raceStore).jobs :=
  ⟨by decide,
   (claim_C5_failure_contained (fun l => l) raceStore "cannot identify image file" raceJob
     (by decide)).1⟩

/-- C6: the claim states that every scratch file created by a worker cycle
is removed on every exit path.  The code refutes it: a successful gcp-backend
cycle creates the download temporary file (created with `delete=False`) and
the transform output `/tmp/{job.id}.png`, and removes nothing — neither
worker.py nor storage.py contains any file-removal call. -/
theorem claim_C6_scratch_files_not_removed :
    (process_job_gcp_disk "/tmp/tmpdl1.png" raceJob).1
      = ["/tmp/tmpdl1.png", "/tmp/job-a.png"] ∧
    (process_job_gcp_disk "/tmp/tmpdl1.png" raceJob).2 = [] := by decide

theorem gnp_append_two (A : List Job) (jA jB : Job)
    (hnpA : get_next_pending_job A = none) (hA : jA.status = JobStatus.PENDING) :
    get_next_pending_job ((A ++ [jA]) ++ [jB]) = some jA := by
  rw [List.append_assoc, get_next_pending_job_append, hnpA]
  simp [get_next_pending_job, hA, Option.orElse]

theorem gnp_replace_two (A : List Job) (jA jB k : Job)
    (hnpA : get_next_pending_job A = none)
    (hk : k.id ∉ A.map Job.id) (hkA : jA.id = k.id)
    (hkst : k.status ≠ JobStatus.PENDING) (hB : jB.status = JobStatus.PENDING) :
    get_next_pending_job (replaceById ((A ++ [jA]) ++ [jB]) k) = some jB := by
  rw [List.append_assoc, replaceById_append_of_not_mem _ _ _ hk]
  have hrep : replaceById ([jA] ++ [jB]) k = k :: [jB] := by
    simp [replaceById, hkA]
  rw [hrep, get_next_pending_job_append, hnpA]
  simp [get_next_pending_job, hkst, hB, Option.orElse]

/-- C7: two create calls with distinct filenames and distinct fresh uuids
return records with distinct ids and status PENDING, append both records in
creation order, store both byte payloads under their input paths, and
`get_next_pending_job` yields the first record, then — once the first is
claimed to PROCESSING — the second, i.e. claim order matches creation order
when no claim intervenes. -/
theorem claim_C7_create_fresh_append_fifo
    (s : LocalStore) (id1 id2 f1 f2 : String) (b1 b2 : List Nat)
    (j1 j2 : Job) (s1 s2 : LocalStore)
    (e1 : create_job_local id1 f1 b1 s = (j1, s1))
    (e2 : create_job_local id2 f2 b2 s1 = (j2, s2))
    (hid : id1 ≠ id2) (hf : f1 ≠ f2)
    (h1 : id1 ∉ s.jobs.map Job.id)
    (hnp : get_next_pending_job s.jobs = none) :
    j1.id ≠ j2.id ∧
    j1.status = JobStatus.PENDING ∧ j2.status = JobStatus.PENDING ∧
    s2.jobs = s.jobs ++ [j1, j2] ∧
    lookupFile s2.files (destPath f1) = some b1 ∧
    lookupFile s2.files (destPath f2) = some b2 ∧
    get_next_pending_job s2.jobs = some j1 ∧
    get_next_pending_job (update_job { j1 with status := JobStatus.PROCESSING } s2).jobs
      = some j2 := by
  simp only [create_job_local, Prod.mk.injEq] at e1 e2
  obtain ⟨hj1, hs1⟩ := e1
  subst hj1
  subst hs1
  obtain ⟨hj2, hs2⟩ := e2
  subst hj2
  subst hs2
  have hd12 : destPath f1 ≠ destPath f2 := fun hdd => hf (destPath_inj _ _ hdd)
  refine ⟨by simpa using hid, rfl, rfl, by simp, ?_, ?_, ?_, ?_⟩
  · rw [lookupFile_setFile_ne _ _ _ _ (Ne.symm hd12)]
    exact lookupFile_setFile_self _ _ _
  · exact lookupFile_setFile_self _ _ _
  · exact gnp_append_two s.jobs _ _ hnp rfl
  · exact gnp_replace_two s.jobs _ _ _ hnp h1 rfl (by simp) rfl

/-- Witness for C7: two concrete creates on the empty store. -/
theorem claim_C7_create_fresh_append_fifo_witness :
    (create_job_local "a" "x.png" [1] initStore).1.id
      ≠ (create_job_local "b" "y.png" [2] (create_job_local "a" "x.png" [1] initStore).2).1.id ∧
    (create_job_local "a" "x.png" [1] initStore).1.status = JobStatus.PENDING ∧
    (create_job_local "b" "y.png" [2] (create_job_local "a" "x.png" [1] initStore).2).1.status
      = JobStatus.PENDING ∧
    (create_job_local "b" "y.png" [2] (create_job_local "a" "x.png" [1] initStore).2).2.jobs
      = initStore.jobs ++ [(create_job_local "a" "x.png" [1] initStore).1,
          (create_job_local "b" "y.png" [2] (create_job_local "a" "x.png" [1] initStore).2).1] ∧
    lookupFile (create_job_local "b" "y.png" [2]
        (create_job_local "a" "x.png" [1] initStore).2).2.files (destPath "x.png") = some [1] ∧
    lookupFile (create_job_local "b" "y.png" [2]
        (create_job_local "a" "x.png" [1] initStore).2).2.files (destPath "y.png") = some [2] ∧
    get_next_pending_job (create_job_local "b" "y.png" [2]
        (create_job_local "a" "x.png" [1] initStore).2).2.jobs
      = some (create_job_local "a" "x.png" [1] initStore).1 ∧
    get_next_pending_job (update_job
        { (create_job_local "a" "x.png" [1] initStore).1 with status := JobStatus.PROCESSING }
        (create_job_local "b" "y.png" [2]
          (create_job_local "a" "x.png" [1] initStore).2).2).jobs
      = some (create_job_local "b" "y.png" [2]
          (create_job_local "a" "x.png" [1] initStore).2).1 :=
  claim_C7_create_fresh_append_fifo initStore "a" "b" "x.png" "y.png" [1] [2] _ _ _ _
    rfl rfl (by decide) (by decide) (by decide) (by decide)

/-- C8 counterexample: on the local backend the store holds no object at
the requested path, yet `download_input_to_tempfile` returns the path
successfully instead of failing with ObjectNotFound — the claim that absence
fails with ObjectNotFound on every variant including local is false. -/
theorem claim_C8_counterexample :
    lookupFile [] "data/input/missing.png" = none ∧
    download_input_local [] "data/input/missing.png" = Except.ok "data/input/missing.png" :=
  ⟨rfl, rfl⟩

/-- C8 (amended): on the gcp and azure variants the download fails with
InvalidURI (a ValueError) exactly when the URI scheme does not match the
backend, and otherwise either succeeds or fails with ObjectNotFound (raised
by the cloud SDK, modelled from the spec) — these are the only failure
modes; the local variant never fails: it returns the stored path without any
existence check, so an absent object is not detected by the download. -/
theorem claim_C8_download_failure_modes (files : List (String × List Nat))
    (objects : List ((String × String) × List Nat)) (p t : String) :
    download_input_local files p = Except.ok p ∧
    (startsWithStr p "gs://" = false →
      download_input_gcp objects p t = Except.error (DlError.invalidGcsPath p)) ∧
    (startsWithStr p "gs://" = true →
      download_input_gcp objects p t = Except.ok t ∨
      download_input_gcp objects p t = Except.error DlError.objectNotFound) ∧
    (startsWithStr p "az://" = false →
      download_input_azure objects p t = Except.error (DlError.invalidAzurePath p)) ∧
    (startsWithStr p "az://" = true →
      download_input_azure objects p t = Except.ok t ∨
      download_input_azure objects p t = Except.error DlError.objectNotFound) := by
  refine ⟨rfl, ?_, ?_, ?_, ?_⟩
  · intro h
    simp [download_input_gcp, h]
  · intro h
    simp only [download_input_gcp, h, if_true]
    cases lookupObject objects ((partitionOn (partitionOn p "gs://").2 "/").1,
        (partitionOn (partitionOn p "gs://").2 "/").2) with
    | none => right; rfl
    | some c => left; rfl
  · intro h
    simp [download_input_azure, h]
  · intro h
    simp only [download_input_azure, h, if_true]
    cases lookupObject objects ((partitionOn (partitionOn p "az://").2 "/").1,
        (partitionOn (partitionOn p "az://").2 "/").2) with
    | none => right; rfl
    | some c => left; rfl

/-- Witness for C8 (amended): concrete gcp and azure downloads. -/
theorem claim_C8_download_failure_modes_witness :
    download_input_local [] "gs://b/input/a.png" = Except.ok "gs://b/input/a.png" ∧
    (download_input_gcp [(("b", "input/a.png"), [1])] "gs://b/input/a.png" "/tmp/t1"
        = Except.ok "/tmp/t1" ∨
     download_input_gcp [(("b", "input/a.png"), [1])] "gs://b/input/a.png" "/tmp/t1"
        = Except.error DlError.objectNotFound) ∧
    download_input_azure [(("b", "input/a.png"), [1])] "gs://b/input/a.png" "/tmp/t1"
      = Except.error (DlError.invalidAzurePath "gs://b/input/a.png") := by
  obtain ⟨ha, _, hc, hd, _⟩ := claim_C8_download_failure_modes []
    [(("b", "input/a.png"), [1])] "gs://b/input/a.png" "/tmp/t1"
  exact ⟨ha, hc (by decide), hd (by decide)⟩

/-- C9: `get_next_pending_job` performs no write — the persisted store is
identical before and after the call — and any record it returns is a member
of that unchanged persisted registry with status PENDING at the moment it is
returned. -/
theorem claim_C9_get_next_pending_pure (s : LocalStore) :
    (get_next_pending_op s).2 = s ∧
    ∀ j, (get_next_pending_op s).1 = some j → j ∈ s.jobs ∧ j.status = JobStatus.PENDING :=
  ⟨rfl, fun j h => get_next_pending_job_mem s.jobs j h⟩

/-- Witness for C9: polling a one-job registry returns its PENDING record
and leaves the store unchanged. -/
theorem claim_C9_get_next_pending_pure_witness :
    (get_next_pending_op raceStore).2 = raceStore ∧
    (raceJob ∈ raceStore.jobs ∧ raceJob.status = JobStatus.PENDING) :=
  ⟨(claim_C9_get_next_pending_pure raceStore).1,
   (claim_C9_get_next_pending_pure raceStore).2 raceJob (by decide)⟩

/-- C10: two create calls with the same filename on the same (local)
backend return records with equal image_path values, and the second call
overwrites the stored input object's bytes, so the first job's image_path
thereafter resolves to the second call's bytes. -/
theorem claim_C10_same_filename_overwrites (s : LocalStore) (id1 id2 f : String)
    (b1 b2 : List Nat) (j1 j2 : Job) (s1 s2 : LocalStore)
    (e1 : create_job_local id1 f b1 s = (j1, s1))
    (e2 : create_job_local id2 f b2 s1 = (j2, s2)) :
    j1.image_path = j2.image_path ∧
    lookupFile s2.files j1.image_path = some b2 := by
  simp only [create_job_local, Prod.mk.injEq] at e1 e2
  obtain ⟨hj1, hs1⟩ := e1
  subst hj1
  subst hs1
  obtain ⟨hj2, hs2⟩ := e2
  subst hj2
  subst hs2
  exact ⟨rfl, by simp [lookupFile_setFile_self]⟩

/-- Witness for C10: two concrete creates of "f.png" on the empty store. -/
theorem claim_C10_same_filename_overwrites_witness :
    (create_job_local "a" "f.png" [1] initStore).1.image_path
      = (create_job_local "b" "f.png" [2]
          (create_job_local "a" "f.png" [1] initStore).2).1.image_path ∧
    lookupFile (create_job_local "b" "f.png" [2]
        (create_job_local "a" "f.png" [1] initStore).2).2.files
      (create_job_local "a" "f.png" [1] initStore).1.image_path = some [2] :=
  claim_C10_same_filename_overwrites initStore "a" "b" "f.png" [1] [2] _ _ _ _ rfl rfl
